import Mathlib

/-!
Verification of the TK-IT/mail alias-resolution and forwarding core.

The definitions below are shallow embeddings of the Python source:
  - tkmail/address.py: get_period, parse_recipient (with parse_alias
    abstracted as a resolver parameter, since it only consults the external
    organisational database),
  - emailtunnel/__init__.py: Envelope.recipients and the grouped branch of
    SMTPForwarder.handle_envelope (with the delivery sink abstracted: each
    deliver call is recorded as a (group, recipients) pair).

Python strings are modelled as lists of characters, Python sets as Finset,
Python dicts (insertion ordered) as association lists or update functions,
and raised exceptions as Except / Option results.  Scanning loops that
consume a list non-structurally are written with an explicit fuel argument
(initialised to the list length) so that all definitions compute by kernel
reduction.
-/

/-- Decidable equality of Except values, so that concrete runs of the
embedded functions can be checked by decide. -/
instance {ε α : Type} [DecidableEq ε] [DecidableEq α] : DecidableEq (Except ε α) := fun x y =>
  match x, y with
  | .ok a, .ok b =>
    if h : a = b then isTrue (by rw [h]) else isFalse (by intro hh; cases hh; exact h rfl)
  | .error e, .error f =>
    if h : e = f then isTrue (by rw [h]) else isFalse (by intro hh; cases hh; exact h rfl)
  | .ok _, .error _ => isFalse (by intro hh; cases hh)
  | .error _, .ok _ => isFalse (by intro hh; cases hh)

/-! ## Period arithmetic (tkmail.address.get_period) -/

/-- Numeric value of a decimal digit character; none on a non-digit.
Building block for Python int() applied to a slice of the postfix. -/
def toDigit? (c : Char) : Option Nat :=
  if c.isDigit then some (c.toNat - 48) else none

/-- Python int() on a string: fails on the empty string or on any non-digit
character (a ValueError in the source). -/
def parseNat? (l : List Char) : Option Nat :=
  if l.isEmpty then none
  else l.foldl (fun acc c =>
    match acc, toDigit? c with
    | some n, some d => some (10 * n + d)
    | _, _ => none) (some 0)

/-- Value of a run of digit characters (the exponent of a grade letter;
the scanner below only produces digit runs, so this total function agrees
with Python int() there). -/
def digitRunVal (l : List Char) : Nat :=
  l.foldl (fun a c => 10 * a + (c.toNat - 48)) 0

/-- Multiplier of a grade letter: the dictionary
dict(K=-1, G=1, B=2, O=3, T=1) in get_period.  Letters outside the
dictionary are never looked up because the scanner only yields KGBOT. -/
def letterValue (c : Char) : Int :=
  if c = 'K' then -1
  else if c = 'G' then 1
  else if c = 'B' then 2
  else if c = 'O' then 3
  else if c = 'T' then 1
  else 0

/-- Test for membership in the character class [KGBOT]. -/
def isGradeLetter (c : Char) : Bool :=
  c = 'K' || c = 'G' || c = 'B' || c = 'O' || c = 'T'

/-- Fuel-driven scanner behind findGradeRuns; the fuel strictly exceeds
the number of characters still to be scanned, so it never runs out. -/
def findGradeRunsF : Nat → List Char → List (Char × List Char)
  | 0, _ => []
  | _ + 1, [] => []
  | fuel + 1, c :: rest =>
    if isGradeLetter c then
      (c, rest.takeWhile Char.isDigit) :: findGradeRunsF fuel (rest.dropWhile Char.isDigit)
    else
      findGradeRunsF fuel rest

/-- All matches of re.findall(r"([KGBOT])([0-9]*)", s): scan the string,
and at each KGBOT letter emit the letter together with the following run
of digits, resuming after that run; other characters are skipped. -/
def findGradeRuns (l : List Char) : List (Char × List Char) :=
  findGradeRunsF l.length l

lemma findGradeRunsF_fuel : ∀ (f1 f2 : Nat) (l : List Char),
    l.length ≤ f1 → l.length ≤ f2 → findGradeRunsF f1 l = findGradeRunsF f2 l := by
  intro f1
  induction f1 with
  | zero =>
    intro f2 l h1 _
    have : l = [] := List.length_eq_zero.mp (Nat.le_zero.mp h1)
    subst this
    cases f2 <;> rfl
  | succ f1 ih =>
    intro f2 l h1 h2
    cases l with
    | nil => cases f2 <;> rfl
    | cons c rest =>
      cases f2 with
      | zero => exact absurd h2 (by simp)
      | succ f2 =>
        simp only [findGradeRunsF]
        have hr : rest.length ≤ f1 := Nat.le_of_succ_le_succ (by simpa using h1)
        have hr2 : rest.length ≤ f2 := Nat.le_of_succ_le_succ (by simpa using h2)
        have hd : (rest.dropWhile Char.isDigit).length ≤ rest.length :=
          (List.dropWhile_sublist _).length_le
        split
        · rw [ih f2 _ (le_trans hd hr) (le_trans hd hr2)]
        · rw [ih f2 _ hr hr2]

lemma findGradeRuns_nil : findGradeRuns [] = [] := rfl

lemma findGradeRuns_cons (c : Char) (rest : List Char) :
    findGradeRuns (c :: rest) =
      if isGradeLetter c then
        (c, rest.takeWhile Char.isDigit) :: findGradeRuns (rest.dropWhile Char.isDigit)
      else
        findGradeRuns rest := by
  show findGradeRunsF (rest.length + 1) (c :: rest) = _
  simp only [findGradeRunsF]
  have hd : (rest.dropWhile Char.isDigit).length ≤ rest.length :=
    (List.dropWhile_sublist _).length_le
  split
  · rw [findGradeRunsF_fuel rest.length (rest.dropWhile Char.isDigit).length _ hd le_rfl]
    rfl
  · rfl

/-- Exponent of one scanned run: the digits value, defaulting to 1 when
the digit run is empty (int(exponent or 1) in the source). -/
def runExponent (ds : List Char) : Int :=
  match ds with
  | [] => 1
  | ds => (digitRunVal ds : Int)

/-- Failure modes of get_period: InvalidRecipient(arg) raised explicitly,
or an uncaught ValueError from int() on a non-numeric slice. -/
inductive PeriodError where
  | invalidRecipient (arg : List Char)
  | valueError
deriving DecidableEq

/-- Shallow embedding of tkmail.address.get_period(prefix, postfix,
current_period).  The postfix is decoded to a base period first (empty
postfix keeps the current period; a 4-digit postfix is either a
consecutive two-digit pair, a literal 19xx/20xx year, or invalid; a
2-digit postfix picks the century by the 56 cutoff), then the grade
accumulated from the scanned letter runs is subtracted. -/
def get_period (pfx sfx : List Char) (current_period : Int) : Except PeriodError Int :=
  let periodE : Except PeriodError Int :=
    if sfx = [] then .ok current_period
    else if sfx.length = 4 then
      match parseNat? (sfx.take 2), parseNat? (sfx.drop 2) with
      | some first, some second =>
        if (first + 1) % 100 = second then
          if 56 < first then .ok (1900 + (first : Int)) else .ok (2000 + (first : Int))
        else if first = 19 ∨ first = 20 then
          match parseNat? sfx with
          | some v => .ok (v : Int)
          | none => .error .valueError
        else .error (.invalidRecipient sfx)
      | _, _ => .error .valueError
    else if sfx.length = 2 then
      match parseNat? sfx with
      | some year => if 56 < year then .ok (1900 + (year : Int)) else .ok (2000 + (year : Int))
      | none => .error .valueError
    else .error (.invalidRecipient sfx)
  match periodE with
  | .error e => .error e
  | .ok period =>
    let grad : Int := (findGradeRuns pfx).foldl
      (fun g r => g + letterValue r.1 * runExponent r.2) 0
    .ok (period - grad)

/-- Renders a list of (letter, exponent digits) runs back into the raw
grade string they were scanned from. -/
def renderRuns (runs : List (Char × List Char)) : List Char :=
  runs.flatMap (fun r => r.1 :: r.2)

/-! ### Facts about the grade scanner -/

lemma gradeLetter_not_digit {c : Char} (h : isGradeLetter c = true) : c.isDigit = false := by
  simp only [isGradeLetter, Bool.or_eq_true, decide_eq_true_eq] at h
  rcases h with (((h | h) | h) | h) | h <;> subst h <;> decide

lemma renderRuns_takeDrop (runs : List (Char × List Char))
    (hwf : ∀ r ∈ runs, isGradeLetter r.1) :
    (renderRuns runs).takeWhile Char.isDigit = [] ∧
    (renderRuns runs).dropWhile Char.isDigit = renderRuns runs := by
  cases runs with
  | nil => simp [renderRuns]
  | cons r rest =>
    have hnd : Char.isDigit r.1 = false := gradeLetter_not_digit (hwf r (by simp))
    have hrend : renderRuns (r :: rest) = r.1 :: (r.2 ++ renderRuns rest) := by
      simp [renderRuns]
    rw [hrend]
    constructor
    · exact List.takeWhile_cons_of_neg (by simp [hnd])
    · exact List.dropWhile_cons_of_neg (by simp [hnd])

lemma findGradeRuns_render (runs : List (Char × List Char))
    (hwf : ∀ r ∈ runs, isGradeLetter r.1 ∧ ∀ c ∈ r.2, c.isDigit) :
    findGradeRuns (renderRuns runs) = runs := by
  induction runs with
  | nil => exact findGradeRuns_nil
  | cons r rest ih =>
    obtain ⟨hlet, hds⟩ := hwf r (by simp)
    have hwfrest : ∀ x ∈ rest, isGradeLetter x.1 ∧ ∀ c ∈ x.2, c.isDigit :=
      fun x hx => hwf x (by simp [hx])
    have htail := renderRuns_takeDrop rest (fun x hx => (hwfrest x hx).1)
    have hrend : renderRuns (r :: rest) = r.1 :: (r.2 ++ renderRuns rest) := by
      simp [renderRuns]
    have htake : (r.2 ++ renderRuns rest).takeWhile Char.isDigit = r.2 := by
      rw [List.takeWhile_append_of_pos hds, htail.1, List.append_nil]
    have hdrop : (r.2 ++ renderRuns rest).dropWhile Char.isDigit = renderRuns rest := by
      rw [List.dropWhile_append_of_pos hds, htail.2]
    rw [hrend, findGradeRuns_cons, if_pos hlet, htake, hdrop, ih hwfrest]

lemma foldl_add_map_sum {α : Type} (f : α → Int) (l : List α) :
    ∀ x : Int, l.foldl (fun g r => g + f r) x = x + (l.map f).sum := by
  induction l with
  | nil => intro x; simp
  | cons a t ih => intro x; simp [ih, add_assoc]

/-! ### Claims C1, C4, C9 -/

/-- C9: for a well-formed grade string, rendered from runs of one KGBOT
letter each followed by optional exponent digits, get_period with empty
postfix returns the base period minus the sum of multiplier times exponent
(default exponent 1); in particular with empty inputs it returns the base
period unchanged. -/
theorem c9_grade_arithmetic :
    (∀ (runs : List (Char × List Char)) (P : Int),
        (∀ r ∈ runs, isGradeLetter r.1 ∧ ∀ c ∈ r.2, c.isDigit) →
        get_period (renderRuns runs) [] P =
          Except.ok (P - (runs.map (fun r => letterValue r.1 * runExponent r.2)).sum)) ∧
    (∀ P : Int, get_period [] [] P = Except.ok P) := by
  constructor
  · intro runs P hwf
    unfold get_period
    simp only [if_pos rfl]
    rw [findGradeRuns_render runs hwf, foldl_add_map_sum]
    simp
  · intro P
    unfold get_period
    simp [findGradeRuns_nil]

/-- Witness for C9: the prefix K3G at base period 2010 gives
2010 - (-1 * 3 + 1 * 1) = 2012. -/
theorem c9_witness : get_period ['K', '3', 'G'] [] 2010 = Except.ok 2012 := by
  have h := c9_grade_arithmetic.1 [('K', ['3']), ('G', [])] 2010 (by decide)
  exact h.trans (by decide)

/-- C1 counterexample: the code maps postfix 1920 at base period 2014 to
2019 via the consecutive-pair branch, not to the literal year 1920 that
the claim states. -/
theorem c1_counterexample : get_period [] ['1', '9', '2', '0'] 2014 ≠ Except.ok 1920 := by
  decide

/-- C1 (amended): with empty prefix, the 4-digit postfix 1920 hits the
consecutive-pair branch (since (19+1) mod 100 = 20) and yields 2019,
regardless of the base period. -/
theorem c1_postfix_1920 (P : Int) : get_period [] ['1', '9', '2', '0'] P = Except.ok 2019 := by
  rfl

lemma parseNat?_two (c1 c2 : Char) (x1 x2 : Nat) (h1 : toDigit? c1 = some x1)
    (h2 : toDigit? c2 = some x2) : parseNat? [c1, c2] = some (10 * x1 + x2) := by
  simp [parseNat?, h1, h2]

/-- C4: a 4-digit postfix whose two 2-digit halves a, b satisfy
(a+1) mod 100 = b makes get_period (with empty prefix) return 1900+a when
a > 56 and 2000+a otherwise, independent of the base period. -/
theorem c4_consecutive_pair (c1 c2 c3 c4 : Char) (x1 x2 x3 x4 : Nat) (P : Int)
    (h1 : toDigit? c1 = some x1) (h2 : toDigit? c2 = some x2)
    (h3 : toDigit? c3 = some x3) (h4 : toDigit? c4 = some x4)
    (hcons : (10 * x1 + x2 + 1) % 100 = 10 * x3 + x4) :
    get_period [] [c1, c2, c3, c4] P =
      Except.ok (if 56 < 10 * x1 + x2
                 then 1900 + ((10 * x1 + x2 : Nat) : Int)
                 else 2000 + ((10 * x1 + x2 : Nat) : Int)) := by
  have hp1 : parseNat? ([c1, c2, c3, c4].take 2) = some (10 * x1 + x2) := by
    rw [show [c1, c2, c3, c4].take 2 = [c1, c2] from rfl]
    exact parseNat?_two c1 c2 x1 x2 h1 h2
  have hp2 : parseNat? ([c1, c2, c3, c4].drop 2) = some (10 * x3 + x4) := by
    rw [show [c1, c2, c3, c4].drop 2 = [c3, c4] from rfl]
    exact parseNat?_two c3 c4 x3 x4 h3 h4
  unfold get_period
  simp only [List.cons_ne_nil, if_false, List.length_cons, List.length_nil, hp1, hp2,
    if_pos hcons, reduceIte]
  by_cases hc : 56 < 10 * x1 + x2 <;> simp [hc, findGradeRuns_nil]

/-- Witness for C4: postfix 1415 (halves 14 and 15, consecutive) yields
2014 at base period 2010. -/
theorem c4_witness : get_period [] ['1', '4', '1', '5'] 2010 = Except.ok 2014 := by
  have h := c4_consecutive_pair '1' '4' '1' '5' 1 4 1 5 2010
    (by decide) (by decide) (by decide) (by decide) (by decide)
  exact h.trans (by decide)

/-! ## Alias resolution (tkmail.address.parse_recipient)

parse_alias(name, db, current_period) either returns a non-empty list of
person ids together with the canonical alias (the origin), or raises
InvalidRecipient(name); it is abstracted below as a resolver function,
since its branches only consult the external database collaborator. -/

/-- Provenance of a resolved person id: GroupAlias, PeriodAlias or
DirectAlias from tkmail.address. -/
inductive Origin where
  | group (name : String)
  | period (kind : String) (period : Int) (name : String)
  | direct (pk : Nat) (name : String)
deriving DecidableEq

/-- Abstraction of parse_alias: none models InvalidRecipient(name). -/
abbrev Resolver := List Char → Option (List Nat × Origin)

/-- Failure modes of parse_recipient: the aggregated
InvalidRecipient(invalid_recipients) carrying every failing token name,
InvalidRecipient(recipient) when the final set is empty, and an uncaught
KeyError should an origin lookup ever miss. -/
inductive RecipientFailure where
  | invalidNames (names : List (List Char))
  | invalidSpec (spec : List Char)
  | keyError
deriving DecidableEq

/-- Test for the sign characters of the token grammar [+-]. -/
def isSign (c : Char) : Bool :=
  c = '+' || c = '-'

/-- Fuel-driven scanner behind tokenize. -/
def tokenizeF : Nat → List Char → List (Char × List Char)
  | 0, _ => []
  | _ + 1, [] => []
  | fuel + 1, c :: rest =>
    if isSign c then
      if rest.takeWhile (fun x => !isSign x) = [] then tokenizeF fuel rest
      else (c, rest.takeWhile (fun x => !isSign x)) ::
        tokenizeF fuel (rest.dropWhile (fun x => !isSign x))
    else
      ('+', (c :: rest).takeWhile (fun x => !isSign x)) ::
        tokenizeF fuel (rest.dropWhile (fun x => !isSign x))

/-- All matches of re.findall(r'([+-]?)([^+-]+)', recipient), with the
empty sign already defaulted to '+' as by (sign or '+') in the source:
each token is an optional sign followed by a nonempty run of non-sign
characters; sign characters not followed by such a run match nothing. -/
def tokenize (l : List Char) : List (Char × List Char) :=
  tokenizeF l.length l

lemma tokenizeF_fuel : ∀ (f1 f2 : Nat) (l : List Char),
    l.length ≤ f1 → l.length ≤ f2 → tokenizeF f1 l = tokenizeF f2 l := by
  intro f1
  induction f1 with
  | zero =>
    intro f2 l h1 _
    have : l = [] := List.length_eq_zero.mp (Nat.le_zero.mp h1)
    subst this
    cases f2 <;> rfl
  | succ f1 ih =>
    intro f2 l h1 h2
    cases l with
    | nil => cases f2 <;> rfl
    | cons c rest =>
      cases f2 with
      | zero => exact absurd h2 (by simp)
      | succ f2 =>
        simp only [tokenizeF]
        have hr : rest.length ≤ f1 := Nat.le_of_succ_le_succ (by simpa using h1)
        have hr2 : rest.length ≤ f2 := Nat.le_of_succ_le_succ (by simpa using h2)
        have hd : (rest.dropWhile (fun x => !isSign x)).length ≤ rest.length :=
          (List.dropWhile_sublist _).length_le
        split
        · split
          · rw [ih f2 _ hr hr2]
          · rw [ih f2 _ (le_trans hd hr) (le_trans hd hr2)]
        · rw [ih f2 _ (le_trans hd hr) (le_trans hd hr2)]

lemma tokenize_nil : tokenize [] = [] := rfl

lemma tokenize_cons_sign_empty (c : Char) (rest : List Char) (hc : isSign c = true)
    (hrun : rest.takeWhile (fun x => !isSign x) = []) :
    tokenize (c :: rest) = tokenize rest := by
  show tokenizeF (rest.length + 1) (c :: rest) = _
  simp only [tokenizeF, hc, if_pos, hrun, if_true]
  rfl

lemma tokenize_cons_sign (c : Char) (rest : List Char) (hc : isSign c = true)
    (hrun : rest.takeWhile (fun x => !isSign x) ≠ []) :
    tokenize (c :: rest) =
      (c, rest.takeWhile (fun x => !isSign x)) ::
        tokenize (rest.dropWhile (fun x => !isSign x)) := by
  show tokenizeF (rest.length + 1) (c :: rest) = _
  simp only [tokenizeF, hc, if_true, if_neg hrun]
  rw [tokenizeF_fuel rest.length (rest.dropWhile (fun x => !isSign x)).length _
    (List.dropWhile_sublist _).length_le le_rfl]
  rfl

lemma tokenize_cons_nonsign (c : Char) (rest : List Char) (hc : isSign c = false) :
    tokenize (c :: rest) =
      ('+', (c :: rest).takeWhile (fun x => !isSign x)) ::
        tokenize (rest.dropWhile (fun x => !isSign x)) := by
  show tokenizeF (rest.length + 1) (c :: rest) = _
  simp only [tokenizeF, hc, Bool.false_eq_true, if_false]
  rw [tokenizeF_fuel rest.length (rest.dropWhile (fun x => !isSign x)).length _
    (List.dropWhile_sublist _).length_le le_rfl]
  rfl

lemma takeDrop_nonsign (name rest : List Char)
    (hns : ∀ c ∈ name, isSign c = false)
    (hrest : rest = [] ∨ ∃ c cs, rest = c :: cs ∧ isSign c = true) :
    (name ++ rest).takeWhile (fun x => !isSign x) = name ∧
    (name ++ rest).dropWhile (fun x => !isSign x) = rest := by
  have hall : ∀ c ∈ name, (fun x => !isSign x) c = true := by
    intro c hc
    simp [hns c hc]
  have htail : rest.takeWhile (fun x => !isSign x) = [] ∧
      rest.dropWhile (fun x => !isSign x) = rest := by
    rcases hrest with h | ⟨c, cs, hr, hc⟩
    · subst h; simp
    · subst hr
      constructor
      · exact List.takeWhile_cons_of_neg (by simp [hc])
      · exact List.dropWhile_cons_of_neg (by simp [hc])
  constructor
  · rw [List.takeWhile_append_of_pos hall, htail.1, List.append_nil]
  · rw [List.dropWhile_append_of_pos hall, htail.2]

lemma tokenize_name_only (name : List Char) (hne : name ≠ [])
    (hns : ∀ c ∈ name, isSign c = false) :
    tokenize name = [('+', name)] := by
  cases name with
  | nil => exact absurd rfl hne
  | cons c cs =>
    have hcs : ∀ x ∈ cs, isSign x = false := fun x hx => hns x (by simp [hx])
    have h := takeDrop_nonsign (c :: cs) [] hns (Or.inl rfl)
    rw [tokenize_cons_nonsign c cs (hns c (by simp))]
    rw [show (c :: cs) ++ ([] : List Char) = c :: cs from List.append_nil _] at h
    rw [h.1]
    have hdrop : cs.dropWhile (fun x => !isSign x) = [] :=
      List.dropWhile_eq_nil_iff.mpr (by intro x hx; simp [hcs x hx])
    rw [hdrop, tokenize_nil]

lemma tokenize_name_sign (name : List Char) (s : Char) (rest : List Char)
    (hne : name ≠ []) (hns : ∀ c ∈ name, isSign c = false) (hs : isSign s = true) :
    tokenize (name ++ s :: rest) = ('+', name) :: tokenize (s :: rest) := by
  cases name with
  | nil => exact absurd rfl hne
  | cons c cs =>
    have hcs : ∀ x ∈ cs, isSign x = false := fun x hx => hns x (by simp [hx])
    have h := takeDrop_nonsign (c :: cs) (s :: rest) hns (Or.inr ⟨s, rest, rfl, hs⟩)
    have h2 := takeDrop_nonsign cs (s :: rest) hcs (Or.inr ⟨s, rest, rfl, hs⟩)
    rw [show (c :: cs) ++ s :: rest = c :: (cs ++ s :: rest) from rfl]
    rw [tokenize_cons_nonsign c (cs ++ s :: rest) (hns c (by simp))]
    rw [show c :: (cs ++ s :: rest) = (c :: cs) ++ s :: rest from rfl]
    rw [h.1, h2.2]

lemma tokenize_sign_name (s : Char) (name rest : List Char)
    (hs : isSign s = true) (hne : name ≠ []) (hns : ∀ c ∈ name, isSign c = false)
    (hrest : rest = [] ∨ ∃ c cs, rest = c :: cs ∧ isSign c = true) :
    tokenize (s :: (name ++ rest)) = (s, name) :: tokenize rest := by
  have h := takeDrop_nonsign name rest hns hrest
  rw [tokenize_cons_sign s (name ++ rest) hs (by rw [h.1]; exact hne), h.1, h.2]

lemma tokenize_sign_name_nil (s : Char) (name : List Char)
    (hs : isSign s = true) (hne : name ≠ []) (hns : ∀ c ∈ name, isSign c = false) :
    tokenize (s :: name) = [(s, name)] := by
  have h := tokenize_sign_name s name [] hs hne hns (Or.inl rfl)
  rw [List.append_nil] at h
  rw [h, tokenize_nil]

/-- One step of the union/difference fold in parse_recipient: a '+' token
unions its person ids into the accumulated set and records this token's
origin for each of them (overwriting earlier origins); any other sign
subtracts the ids and drops their origin entries. -/
def applyOp (st : Finset Nat × (Nat → Option Origin)) (op : Char × List Nat × Origin) :
    Finset Nat × (Nat → Option Origin) :=
  if op.1 = '+' then
    (st.1 ∪ op.2.1.toFinset, fun q => if q ∈ op.2.1 then some op.2.2 else st.2 q)
  else
    (st.1 \ op.2.1.toFinset, fun q => if q ∈ op.2.1 then none else st.2 q)

/-- The personIdOps list of parse_recipient: signed (ids, origin) results
of the tokens that resolved. -/
def resolveOps (pa : Resolver) (toks : List (Char × List Char)) :
    List (Char × List Nat × Origin) :=
  toks.filterMap (fun t => (pa t.2).map (fun r => (t.1, r.1, r.2)))

/-- The invalid_recipients list of parse_recipient: names of the tokens
whose resolution raised InvalidRecipient, in token order. -/
def invalidTokens (pa : Resolver) (toks : List (Char × List Char)) : List (List Char) :=
  toks.filterMap (fun t => if (pa t.2).isNone then some t.2 else none)

/-- The left-to-right fold of the signed ops, starting from the empty id
set and the empty origin dict. -/
def foldState (ops : List (Char × List Nat × Origin)) : Finset Nat × (Nat → Option Origin) :=
  ops.foldl applyOp (∅, fun _ => none)

/-- The list comprehension [origin[r] for r in recipient_ids]: every id
must have an origin entry, otherwise Python would raise KeyError. -/
def lookupOrigins (f : Nat → Option Origin) : List Nat → Option (List Origin)
  | [] => some []
  | r :: rest =>
    match f r, lookupOrigins f rest with
    | some o, some os => some (o :: os)
    | _, _ => none

/-- Ascending insertion sort of a multiset; this is Python sorted()
applied to an unordered collection, written so that it computes by kernel
reduction (insertion sort is invariant under permutation of the input). -/
def msortLe {α : Type} [LinearOrder α] (m : Multiset α) : List α :=
  Quot.liftOn m (List.insertionSort (· ≤ ·)) (fun l1 l2 h =>
    List.eq_of_perm_of_sorted
      ((List.perm_insertionSort _ l1).trans (h.trans (List.perm_insertionSort _ l2).symm))
      (List.sorted_insertionSort _ l1) (List.sorted_insertionSort _ l2))

/-- Python sorted() applied to a set: the ascending list of its elements. -/
def sortListLe {α : Type} [LinearOrder α] (s : Finset α) : List α :=
  msortLe s.val

lemma msortLe_coe {α : Type} [LinearOrder α] (m : Multiset α) :
    ((msortLe m : List α) : Multiset α) = m := by
  induction m using Quotient.inductionOn with
  | h l => exact Quot.sound (List.perm_insertionSort _ l)

lemma msortLe_sorted {α : Type} [LinearOrder α] (m : Multiset α) :
    List.Sorted (· ≤ ·) (msortLe m) := by
  induction m using Quotient.inductionOn with
  | h l => exact List.sorted_insertionSort _ l

/-- The computable sort agrees with the Finset sort from the library, so
all library facts about Finset.sort transfer to it. -/
lemma sortListLe_eq_sort {α : Type} [LinearOrder α] (s : Finset α) :
    sortListLe s = s.sort (· ≤ ·) := by
  refine List.eq_of_perm_of_sorted ?_ (msortLe_sorted s.val) (Finset.sort_sorted _ _)
  exact Multiset.coe_eq_coe.mp ((msortLe_coe s.val).trans (Finset.sort_eq _ _).symm)

/-- Shallow embedding of tkmail.address.parse_recipient(recipient, db,
current_period): tokenize the spec, aggregate all failing tokens into one
InvalidRecipient, fold the resolved tokens by set union/difference while
maintaining the origin dict, sort the final ids ascending, fail when the
final set is empty, and return the ids with their origins realigned. -/
def parse_recipient (pa : Resolver) (recipient : List Char) :
    Except RecipientFailure (List Nat × List Origin) :=
  if invalidTokens pa (tokenize recipient) = [] then
    if sortListLe (foldState (resolveOps pa (tokenize recipient))).1 = [] then
      .error (.invalidSpec recipient)
    else
      match lookupOrigins (foldState (resolveOps pa (tokenize recipient))).2
          (sortListLe (foldState (resolveOps pa (tokenize recipient))).1) with
      | some os => .ok (sortListLe (foldState (resolveOps pa (tokenize recipient))).1, os)
      | none => .error .keyError
  else .error (.invalidNames (invalidTokens pa (tokenize recipient)))

/-! ### Claims C3, C6, C7 -/

/-- C3: whenever at least one token of the spec fails to resolve,
parse_recipient raises exactly one InvalidRecipient carrying the name of
every failing token (in token order), never stopping at the first one. -/
theorem c3_aggregate_failures (pa : Resolver) (recipient : List Char)
    (h : invalidTokens pa (tokenize recipient) ≠ []) :
    parse_recipient pa recipient =
      Except.error (.invalidNames (invalidTokens pa (tokenize recipient))) := by
  unfold parse_recipient
  rw [if_neg h]

/-- Resolver for the C3 witness: every alias fails. -/
def paAllFail : Resolver := fun _ => none

/-- Witness for C3: with a resolver failing on every token, the spec A+B
fails with one error carrying both names A and B. -/
theorem c3_witness : parse_recipient paAllFail ['A', '+', 'B'] =
    Except.error (.invalidNames [['A'], ['B']]) := by
  have h := c3_aggregate_failures paAllFail ['A', '+', 'B'] (by decide)
  exact h.trans (by decide)

/-- C6: when every token resolves but the left-to-right union/difference
fold ends in the empty id set, parse_recipient raises InvalidRecipient
carrying the full spec string. -/
theorem c6_empty_result (pa : Resolver) (recipient : List Char)
    (hall : ∀ t ∈ tokenize recipient, (pa t.2).isSome)
    (hempty : (foldState (resolveOps pa (tokenize recipient))).1 = ∅) :
    parse_recipient pa recipient = Except.error (.invalidSpec recipient) := by
  have hinv : invalidTokens pa (tokenize recipient) = [] := by
    apply List.filterMap_eq_nil_iff.mpr
    intro t ht
    have h2 := hall t ht
    cases hpa : pa t.2 with
    | none => rw [hpa] at h2; simp at h2
    | some v => simp [hpa]
  unfold parse_recipient
  rw [if_pos hinv, hempty, sortListLe_eq_sort, Finset.sort_empty, if_pos rfl]

/-- Resolver for the C6 witness: the single alias A maps to person 1. -/
def paSingleA : Resolver := fun n => if n = ['A'] then some ([1], Origin.group "A") else none

/-- Witness for C6: the spec A-A resolves every token but folds to the
empty set and is rejected with the whole spec string. -/
theorem c6_witness : parse_recipient paSingleA ['A', '-', 'A'] =
    Except.error (.invalidSpec ['A', '-', 'A']) :=
  c6_empty_result paSingleA ['A', '-', 'A'] (by decide) (by decide)

lemma lookupOrigins_sound (f : Nat → Option Origin) :
    ∀ (l : List Nat) (os : List Origin), lookupOrigins f l = some os →
      os.length = l.length ∧
      ∀ i (hi : i < l.length) (hi2 : i < os.length),
        f (l.get ⟨i, hi⟩) = some (os.get ⟨i, hi2⟩) := by
  intro l
  induction l with
  | nil =>
    intro os h
    simp only [lookupOrigins, Option.some.injEq] at h
    subst h
    refine ⟨rfl, ?_⟩
    intro i hi
    exact absurd hi (by simp)
  | cons r rest ih =>
    intro os h
    simp only [lookupOrigins] at h
    cases hf : f r with
    | none => rw [hf] at h; simp at h
    | some o =>
      rw [hf] at h
      cases hrec : lookupOrigins f rest with
      | none => rw [hrec] at h; simp at h
      | some osr =>
        rw [hrec] at h
        simp only [Option.some.injEq] at h
        subst h
        obtain ⟨hlen, hget⟩ := ih osr hrec
        refine ⟨by simp [hlen], ?_⟩
        intro i hi hi2
        cases i with
        | zero => simpa using hf
        | succ i =>
          rw [List.get_cons_succ, List.get_cons_succ]
          exact hget i (by simpa using hi) (by simpa using hi2)

/-- C7: a normal return of parse_recipient is a strictly ascending
duplicate-free id list together with an equally long origin list whose
entry at position i is exactly the origin retained by the fold for the id
at position i. -/
theorem c7_result_invariants (pa : Resolver) (recipient : List Char)
    (ids : List Nat) (os : List Origin)
    (h : parse_recipient pa recipient = Except.ok (ids, os)) :
    List.Sorted (· < ·) ids ∧ os.length = ids.length ∧
    ∀ i (hi : i < ids.length) (hi2 : i < os.length),
      (foldState (resolveOps pa (tokenize recipient))).2 (ids.get ⟨i, hi⟩) =
        some (os.get ⟨i, hi2⟩) := by
  unfold parse_recipient at h
  by_cases h1 : invalidTokens pa (tokenize recipient) = []
  · rw [if_pos h1] at h
    by_cases h2 : sortListLe (foldState (resolveOps pa (tokenize recipient))).1 = []
    · rw [if_pos h2] at h
      exact absurd h (by simp)
    · rw [if_neg h2] at h
      cases heq : lookupOrigins (foldState (resolveOps pa (tokenize recipient))).2
          (sortListLe (foldState (resolveOps pa (tokenize recipient))).1) with
      | none =>
        rw [heq] at h
        exact absurd h (by simp)
      | some osr =>
        rw [heq] at h
        have hpair : (sortListLe (foldState (resolveOps pa (tokenize recipient))).1, osr)
            = (ids, os) := by
          exact Except.ok.inj h
        obtain ⟨hids, hos⟩ := Prod.mk.injEq .. ▸ hpair
        subst hids
        subst hos
        obtain ⟨hlen, hget⟩ := lookupOrigins_sound _ _ _ heq
        refine ⟨?_, hlen, hget⟩
        rw [sortListLe_eq_sort]
        exact Finset.sort_sorted_lt _
  · rw [if_neg h1] at h
    exact absurd h (by simp)

/-- Resolver for the C7 witness: alias A maps to persons 2 and 1. -/
def paPairA : Resolver := fun n => if n = ['A'] then some ([2, 1], Origin.group "A") else none

/-- Witness for C7: resolving the spec A returns ids [1, 2] sorted and
deduplicated, with the matching origins. -/
theorem c7_witness :
    List.Sorted (· < ·) ([1, 2] : List Nat) ∧
    ([Origin.group "A", Origin.group "A"].length = ([1, 2] : List Nat).length) ∧
    ∀ i (hi : i < ([1, 2] : List Nat).length)
      (hi2 : i < ([Origin.group "A", Origin.group "A"]).length),
      (foldState (resolveOps paPairA (tokenize ['A']))).2 (([1, 2] : List Nat).get ⟨i, hi⟩) =
        some (([Origin.group "A", Origin.group "A"]).get ⟨i, hi2⟩) :=
  c7_result_invariants paPairA ['A'] [1, 2] [Origin.group "A", Origin.group "A"] (by decide)

/-! ### Claim C5 -/

lemma lookupOrigins_congr (f g : Nat → Option Origin) :
    ∀ l : List Nat, (∀ r ∈ l, f r = g r) → lookupOrigins f l = lookupOrigins g l := by
  intro l
  induction l with
  | nil => intro _; rfl
  | cons r rest ih =>
    intro h
    simp only [lookupOrigins]
    rw [h r (by simp), ih (fun x hx => h x (by simp [hx]))]

/-- C5: for aliases A and B with disjoint non-empty member sets, the spec
A+B-B resolves to exactly the same result as the spec A alone, because the
subtraction of B cancels the preceding union of B, both in the id set and
in the origin assignment. -/
theorem c5_subtract_cancels (pa : Resolver) (A B : List Char)
    (idsA idsB : List Nat) (oA oB : Origin)
    (hAne : A ≠ []) (hAns : ∀ c ∈ A, isSign c = false)
    (hBne : B ≠ []) (hBns : ∀ c ∈ B, isSign c = false)
    (hpaA : pa A = some (idsA, oA)) (hpaB : pa B = some (idsB, oB))
    (hidsA : idsA ≠ []) (hidsB : idsB ≠ [])
    (hdisj : ∀ x ∈ idsA, x ∉ idsB) :
    parse_recipient pa (A ++ '+' :: (B ++ '-' :: B)) = parse_recipient pa A := by
  have htok : tokenize (A ++ '+' :: (B ++ '-' :: B)) = [('+', A), ('+', B), ('-', B)] := by
    rw [tokenize_name_sign A '+' (B ++ '-' :: B) hAne hAns (by decide)]
    rw [tokenize_sign_name '+' B ('-' :: B) (by decide) hBne hBns (Or.inr ⟨'-', B, rfl, by decide⟩)]
    rw [tokenize_sign_name_nil '-' B (by decide) hBne hBns]
  have htokA : tokenize A = [('+', A)] := tokenize_name_only A hAne hAns
  have hops : resolveOps pa [('+', A), ('+', B), ('-', B)] =
      [('+', idsA, oA), ('+', idsB, oB), ('-', idsB, oB)] := by
    simp [resolveOps, hpaA, hpaB]
  have hopsA : resolveOps pa [('+', A)] = [('+', idsA, oA)] := by
    simp [resolveOps, hpaA]
  have hinv : invalidTokens pa [('+', A), ('+', B), ('-', B)] = [] := by
    simp [invalidTokens, hpaA, hpaB]
  have hinvA : invalidTokens pa [('+', A)] = [] := by
    simp [invalidTokens, hpaA]
  have hfoldA1 : (foldState [('+', idsA, oA)]).1 = ∅ ∪ idsA.toFinset := rfl
  have hfoldA2 : (foldState [('+', idsA, oA)]).2 =
      fun q => if q ∈ idsA then some oA else none := rfl
  have hfold31 : (foldState [('+', idsA, oA), ('+', idsB, oB), ('-', idsB, oB)]).1 =
      ((∅ ∪ idsA.toFinset) ∪ idsB.toFinset) \ idsB.toFinset := rfl
  have hfold32 : (foldState [('+', idsA, oA), ('+', idsB, oB), ('-', idsB, oB)]).2 =
      fun q => if q ∈ idsB then none
               else if q ∈ idsB then some oB
               else if q ∈ idsA then some oA else none := rfl
  have hset : ((∅ ∪ idsA.toFinset) ∪ idsB.toFinset) \ idsB.toFinset
      = (∅ ∪ idsA.toFinset : Finset Nat) := by
    ext q
    simp only [Finset.empty_union, Finset.mem_sdiff, Finset.mem_union, List.mem_toFinset]
    constructor
    · rintro ⟨hq | hq, hnb⟩
      · exact hq
      · exact absurd hq hnb
    · intro hq
      exact ⟨Or.inl hq, hdisj q hq⟩
  have hne2 : sortListLe (∅ ∪ idsA.toFinset : Finset Nat) ≠ [] := by
    rw [sortListLe_eq_sort]
    intro hnil
    have hlen := congrArg List.length hnil
    rw [Finset.length_sort] at hlen
    simp only [List.length_nil] at hlen
    have hem : (∅ ∪ idsA.toFinset : Finset Nat) = ∅ := Finset.card_eq_zero.mp hlen
    rw [Finset.empty_union] at hem
    exact hidsA ((List.toFinset_eq_empty_iff _).mp hem)
  have hcongr : lookupOrigins
      (fun q => if q ∈ idsB then none
                else if q ∈ idsB then some oB
                else if q ∈ idsA then some oA else none)
      (sortListLe (∅ ∪ idsA.toFinset : Finset Nat)) =
      lookupOrigins (fun q => if q ∈ idsA then some oA else none)
      (sortListLe (∅ ∪ idsA.toFinset : Finset Nat)) := by
    apply lookupOrigins_congr
    intro r hr
    rw [sortListLe_eq_sort] at hr
    have hrA : r ∈ idsA := by
      have hm := (Finset.mem_sort _).mp hr
      simpa using hm
    have hrB : r ∉ idsB := hdisj r hrA
    simp [hrA, hrB]
  unfold parse_recipient
  rw [htok, htokA, hinv, hinvA, hops, hopsA]
  simp only [reduceIte]
  rw [hfold31, hfold32, hfoldA1, hfoldA2, hset]
  simp only [if_neg hne2]
  rw [hcongr]

/-- Resolver for the C5 witness: alias A maps to person 1, alias B to
person 2. -/
def paTwo : Resolver := fun n =>
  if n = ['A'] then some ([1], Origin.group "A")
  else if n = ['B'] then some ([2], Origin.group "B") else none

/-- Witness for C5: the spec A+B-B resolves exactly as the spec A. -/
theorem c5_witness :
    parse_recipient paTwo ['A', '+', 'B', '-', 'B'] = parse_recipient paTwo ['A'] :=
  c5_subtract_cancels paTwo ['A'] ['B'] [1] [2] (Origin.group "A") (Origin.group "B")
    (by decide) (by decide) (by decide) (by decide) (by decide) (by decide)
    (by decide) (by decide) (by decide)

/-! ## Grouped delivery (emailtunnel SMTPForwarder.handle_envelope)

The grouped branch of handle_envelope iterates the group tokens in order,
expands each via get_group_recipients, removes duplicates and the
addresses already sent to in this pass, skips the group when nothing
remains, and otherwise records the growing already-sent set and delivers
to the sorted remainder.  Header and envelope manipulation does not affect
the recipient sets and is omitted; each deliver call is recorded as a
(group, sorted recipients) pair. -/

def handle_envelope_grouped {G α : Type} [LinearOrder α] (get_group_recipients : G → List α) :
    List G → Finset α → List (G × List α)
  | [], _ => []
  | group :: rest, already_sent =>
    if (get_group_recipients group).toFinset \ already_sent = ∅ then
      handle_envelope_grouped get_group_recipients rest already_sent
    else
      (group, sortListLe ((get_group_recipients group).toFinset \ already_sent)) ::
        handle_envelope_grouped get_group_recipients rest
          (already_sent ∪ ((get_group_recipients group).toFinset \ already_sent))

lemma heg_sent_not_mem {G α : Type} [LinearOrder α] (expand : G → List α) :
    ∀ (groups : List G) (sent : Finset α) (a : α), a ∈ sent →
      ∀ c ∈ handle_envelope_grouped expand groups sent, a ∉ c.2 := by
  intro groups
  induction groups with
  | nil =>
    intro sent a ha c hc
    simp [handle_envelope_grouped] at hc
  | cons g rest ih =>
    intro sent a ha c hc
    simp only [handle_envelope_grouped] at hc
    by_cases hif : (expand g).toFinset \ sent = ∅
    · rw [if_pos hif] at hc
      exact ih sent a ha c hc
    · rw [if_neg hif] at hc
      rcases List.mem_cons.mp hc with hc1 | hc2
      · subst hc1
        intro hmem
        rw [sortListLe_eq_sort] at hmem
        have hsd := (Finset.mem_sort _).mp hmem
        rw [Finset.mem_sdiff] at hsd
        exact hsd.2 ha
      · exact ih _ a (Finset.mem_union_left _ ha) c hc2

lemma heg_nonempty {G α : Type} [LinearOrder α] (expand : G → List α) :
    ∀ (groups : List G) (sent : Finset α),
      ∀ c ∈ handle_envelope_grouped expand groups sent, c.2 ≠ [] := by
  intro groups
  induction groups with
  | nil =>
    intro sent c hc
    simp [handle_envelope_grouped] at hc
  | cons g rest ih =>
    intro sent c hc
    simp only [handle_envelope_grouped] at hc
    by_cases hif : (expand g).toFinset \ sent = ∅
    · rw [if_pos hif] at hc
      exact ih sent c hc
    · rw [if_neg hif] at hc
      rcases List.mem_cons.mp hc with hc1 | hc2
      · subst hc1
        intro hnil
        simp only [sortListLe_eq_sort] at hnil
        have hlen := congrArg List.length hnil
        rw [Finset.length_sort] at hlen
        simp only [List.length_nil] at hlen
        exact hif (Finset.card_eq_zero.mp hlen)
      · exact ih _ c hc2

lemma heg_pairwise {G α : Type} [LinearOrder α] (expand : G → List α) :
    ∀ (groups : List G) (sent : Finset α),
      List.Pairwise (fun c d => ∀ a, a ∈ c.2 → a ∉ d.2)
        (handle_envelope_grouped expand groups sent) := by
  intro groups
  induction groups with
  | nil => intro sent; simp [handle_envelope_grouped]
  | cons g rest ih =>
    intro sent
    simp only [handle_envelope_grouped]
    by_cases hif : (expand g).toFinset \ sent = ∅
    · rw [if_pos hif]
      exact ih sent
    · rw [if_neg hif]
      refine List.pairwise_cons.mpr ⟨?_, ih _⟩
      intro d hd a hahead
      rw [sortListLe_eq_sort] at hahead
      have hag := (Finset.mem_sort _).mp hahead
      exact heg_sent_not_mem expand rest _ a (Finset.mem_union_right _ hag) d hd

lemma heg_mem_iff {G α : Type} [LinearOrder α] (expand : G → List α) :
    ∀ (groups : List G) (sent : Finset α) (a : α),
      (∃ c ∈ handle_envelope_grouped expand groups sent, a ∈ c.2) ↔
        (a ∉ sent ∧ ∃ g ∈ groups, a ∈ expand g) := by
  intro groups
  induction groups with
  | nil =>
    intro sent a
    simp [handle_envelope_grouped]
  | cons g rest ih =>
    intro sent a
    simp only [handle_envelope_grouped]
    by_cases hif : (expand g).toFinset \ sent = ∅
    · rw [if_pos hif, ih]
      constructor
      · rintro ⟨hans, g', hg', hag'⟩
        exact ⟨hans, g', List.mem_cons_of_mem _ hg', hag'⟩
      · rintro ⟨hans, g', hg', hag'⟩
        rcases List.mem_cons.mp hg' with rfl | hg'rest
        · exfalso
          have hmem : a ∈ (expand g').toFinset \ sent := by
            rw [Finset.mem_sdiff, List.mem_toFinset]
            exact ⟨hag', hans⟩
          rw [hif] at hmem
          exact absurd hmem (Finset.not_mem_empty a)
        · exact ⟨hans, g', hg'rest, hag'⟩
    · rw [if_neg hif]
      constructor
      · rintro ⟨c, hc, hac⟩
        rcases List.mem_cons.mp hc with rfl | hct
        · rw [sortListLe_eq_sort] at hac
          have hsd := (Finset.mem_sort _).mp hac
          rw [Finset.mem_sdiff, List.mem_toFinset] at hsd
          exact ⟨hsd.2, g, List.mem_cons_self _ _, hsd.1⟩
        · have hrec := (ih _ a).mp ⟨c, hct, hac⟩
          refine ⟨fun hs => hrec.1 (Finset.mem_union_left _ hs), ?_⟩
          obtain ⟨-, g', hg', hag'⟩ := hrec
          exact ⟨g', List.mem_cons_of_mem _ hg', hag'⟩
      · rintro ⟨hans, g', hg', hag'⟩
        rcases List.mem_cons.mp hg' with rfl | hg'rest
        · refine ⟨(g', sortListLe ((expand g').toFinset \ sent)), List.mem_cons_self _ _, ?_⟩
          rw [sortListLe_eq_sort]
          refine (Finset.mem_sort _).mpr ?_
          rw [Finset.mem_sdiff, List.mem_toFinset]
          exact ⟨hag', hans⟩
        · by_cases hag : a ∈ (expand g).toFinset \ sent
          · refine ⟨(g, sortListLe ((expand g).toFinset \ sent)), List.mem_cons_self _ _, ?_⟩
            rw [sortListLe_eq_sort]
            exact (Finset.mem_sort _).mpr hag
          · have hans' : a ∉ sent ∪ ((expand g).toFinset \ sent) := by
              rw [Finset.mem_union]
              rintro (h | h)
              · exact hans h
              · exact hag h
            obtain ⟨c, hct, hac⟩ := (ih _ a).mpr ⟨hans', g', hg'rest, hag'⟩
            exact ⟨c, List.mem_cons_of_mem _ hct, hac⟩

lemma heg_earliest {G α : Type} [LinearOrder α] (expand : G → List α) :
    ∀ (groups : List G) (sent : Finset α) (i : Nat) (hi : i < groups.length) (a : α),
      a ∉ sent → a ∈ expand (groups.get ⟨i, hi⟩) →
      (∀ j (hj : j < groups.length), j < i → a ∉ expand (groups.get ⟨j, hj⟩)) →
      ∃ c ∈ handle_envelope_grouped expand groups sent,
        c.1 = groups.get ⟨i, hi⟩ ∧ a ∈ c.2 := by
  intro groups
  induction groups with
  | nil => intro sent i hi; exact absurd hi (by simp)
  | cons g rest ih =>
    intro sent i hi a hans hai hfirst
    cases i with
    | zero =>
      have hag : a ∈ (expand g).toFinset \ sent := by
        rw [Finset.mem_sdiff, List.mem_toFinset]
        exact ⟨hai, hans⟩
      have hifne : (expand g).toFinset \ sent ≠ ∅ := by
        intro h
        rw [h] at hag
        exact absurd hag (Finset.not_mem_empty a)
      simp only [handle_envelope_grouped]
      rw [if_neg hifne]
      refine ⟨(g, sortListLe ((expand g).toFinset \ sent)), List.mem_cons_self _ _, rfl, ?_⟩
      rw [sortListLe_eq_sort]
      exact (Finset.mem_sort _).mpr hag
    | succ i =>
      have hnotg : a ∉ expand g := by
        have h0 := hfirst 0 (by simp) (Nat.succ_pos i)
        simpa using h0
      have hi' : i < rest.length := by simpa using hi
      have hfirst' : ∀ j (hj : j < rest.length), j < i → a ∉ expand (rest.get ⟨j, hj⟩) := by
        intro j hj hji
        have h1 := hfirst (j + 1) (by simpa using Nat.succ_lt_succ hj) (Nat.succ_lt_succ hji)
        simpa using h1
      simp only [handle_envelope_grouped]
      by_cases hif : (expand g).toFinset \ sent = ∅
      · rw [if_pos hif]
        obtain ⟨c, hc, h1, h2⟩ := ih sent i hi' a hans (by simpa using hai) hfirst'
        exact ⟨c, hc, h1, h2⟩
      · rw [if_neg hif]
        have hag : a ∉ (expand g).toFinset \ sent := by
          rw [Finset.mem_sdiff, List.mem_toFinset]
          rintro ⟨h, -⟩
          exact hnotg h
        have hans' : a ∉ sent ∪ ((expand g).toFinset \ sent) := by
          rw [Finset.mem_union]
          rintro (h | h)
          · exact hans h
          · exact hag h
        obtain ⟨c, hc, h1, h2⟩ := ih _ i hi' a hans' (by simpa using hai) hfirst'
        exact ⟨c, List.mem_cons_of_mem _ hc, h1, h2⟩

/-! ### Claim C2 -/

/-- C2: in grouped delivery of one message, every deliver call has a
non-empty recipient list (groups with nothing remaining are skipped), the
recipient lists of distinct deliver calls are disjoint (so every address
receives at most one deliver call), an address is delivered exactly when
some group expands to it, and an address not covered by any earlier group
is kept in the deliver call of the earliest group expanding to it. -/
theorem c2_grouped_dedup {G α : Type} [LinearOrder α] (expand : G → List α) (groups : List G) :
    (∀ c ∈ handle_envelope_grouped expand groups (∅ : Finset α), c.2 ≠ []) ∧
    List.Pairwise (fun c d => ∀ a, a ∈ c.2 → a ∉ d.2)
      (handle_envelope_grouped expand groups (∅ : Finset α)) ∧
    (∀ a : α, (∃ c ∈ handle_envelope_grouped expand groups (∅ : Finset α), a ∈ c.2) ↔
      ∃ g ∈ groups, a ∈ expand g) ∧
    (∀ (i : Nat) (hi : i < groups.length) (a : α), a ∈ expand (groups.get ⟨i, hi⟩) →
      (∀ j (hj : j < groups.length), j < i → a ∉ expand (groups.get ⟨j, hj⟩)) →
      ∃ c ∈ handle_envelope_grouped expand groups (∅ : Finset α),
        c.1 = groups.get ⟨i, hi⟩ ∧ a ∈ c.2) := by
  refine ⟨heg_nonempty expand groups ∅, heg_pairwise expand groups ∅, ?_, ?_⟩
  · intro a
    rw [heg_mem_iff]
    simp
  · intro i hi a hai hfirst
    exact heg_earliest expand groups ∅ i hi a (Finset.not_mem_empty a) hai hfirst

/-- Group expansion for the C2 witness: group 0 expands to addresses 1, 2
and group 1 to addresses 2, 3. -/
def expandW : Nat → List Nat := fun g => if g = 0 then [1, 2] else [2, 3]

/-- Witness for C2: with overlapping groups [0, 1], address 3 (first
covered by group 1) is delivered in the call for group 1. -/
theorem c2_witness :
    ∃ c ∈ handle_envelope_grouped expandW [0, 1] (∅ : Finset Nat), c.1 = 1 ∧ 3 ∈ c.2 := by
  have h := (c2_grouped_dedup expandW [0, 1]).2.2.2 1 (by decide) 3 (by decide) (by decide)
  exact h

/-! ## Envelope recipients (emailtunnel Envelope.recipients)

The parsing of header values into (realname, address) pairs is done by the
standard email library (email.utils.getaddresses together with the
encoded-word decoding of the address); it is abstracted as a function from
a header name to the ordered list of its already-decoded (realname,
address) pairs, empty for absent headers.  formataddr((realname, address))
is kept as the pair itself, so a triple of Envelope.recipients() is
modelled as (envelope address or none, (realname, address), header). -/

/-- An entry of the visible_recipients dict, keyed by address:
(address, realname, header).  Python dict insertion order is the list
order, and keys are unique. -/
abbrev VisEntry := String × String × String

/-- One triple of the result of Envelope.recipients(). -/
abbrev RcptEntry := Option String × (String × String) × String

/-- The fixed header precedence order scanned by Envelope.recipients(). -/
def theHeaders : List String :=
  ["To", "Resent-To", "Cc", "Resent-Cc", "Bcc", "Resent-Bcc"]

/-- Python headers.index(h): position of a header in the precedence list
(every header produced below occurs in the list, so the out-of-range
value length is never reached where it matters). -/
def headerIndex (h : String) : Nat :=
  theHeaders.findIdx (fun k => k == h)

/-- Python dict.setdefault keyed by address: keeps the existing entry, or
appends the new one at the end (insertion order). -/
def setdefault (vis : List VisEntry) (a : String) (v : String × String) : List VisEntry :=
  if vis.any (fun e => e.1 == a) then vis else vis ++ [(a, v.1, v.2)]

/-- The visible_recipients dict of Envelope.recipients(): fold the headers
in precedence order, and for each (realname, address) pair of a header
record (realname, header) under the address unless already present, so
the first header containing an address wins. -/
def visible_recipients (addrs : String → List (String × String)) : List VisEntry :=
  theHeaders.foldl
    (fun vis k => (addrs k).foldl (fun vis2 ra => setdefault vis2 ra.2 (ra.1, k)) vis) []

/-- Python visible_recipients.pop(address, ('', 'Bcc')): the stored
(realname, header) and the dict without that key, or the default and the
unchanged dict when the address is not a key. -/
def popVis (vis : List VisEntry) (a : String) : (String × String) × List VisEntry :=
  match vis.find? (fun e => e.1 == a) with
  | some e => ((e.2.1, e.2.2), vis.filter (fun x => !(x.1 == a)))
  | none => (("", "Bcc"), vis)

/-- The loop over the envelope recipients: each address pops its visible
entry (defaulting to Bcc) and yields its result triple; returns the
triples in rcpttos order together with the remaining dict. -/
def envLoop (vis : List VisEntry) : List String → List RcptEntry × List VisEntry
  | [] => ([], vis)
  | a :: rest =>
    ((some a, ((popVis vis a).1.1, a), (popVis vis a).1.2) :: (envLoop (popVis vis a).2 rest).1,
     (envLoop (popVis vis a).2 rest).2)

/-- Python result.sort(key=lambda t: headers.index(t[2])): a stable sort
by header position; for a key ranging over the positions of the fixed
six-element header list, the stable sort is exactly the concatenation of
the per-position buckets in scan order. -/
def sortByHeaderIndex (l : List RcptEntry) : List RcptEntry :=
  (List.range theHeaders.length).flatMap (fun i => l.filter (fun e => headerIndex e.2.2 == i))

/-- Shallow embedding of Envelope.recipients(): triples for the envelope
recipients in order (consuming visible entries), then triples with a none
address for the left-over visible addresses, sorted by header
precedence. -/
def envelope_recipients (addrs : String → List (String × String))
    (rcpttos : List String) : List RcptEntry :=
  sortByHeaderIndex ((envLoop (visible_recipients addrs) rcpttos).1 ++
    (envLoop (visible_recipients addrs) rcpttos).2.map (fun e => (none, (e.2.1, e.1), e.2.2)))

/-! ### Facts about the sort and the visible-recipients dict -/

lemma mem_sortByHeaderIndex (l : List RcptEntry) (e : RcptEntry) :
    e ∈ sortByHeaderIndex l ↔ e ∈ l ∧ headerIndex e.2.2 < theHeaders.length := by
  simp only [sortByHeaderIndex, List.mem_flatMap, List.mem_range, List.mem_filter, beq_iff_eq]
  constructor
  · rintro ⟨i, hi, he, hidx⟩
    exact ⟨he, by rw [hidx]; exact hi⟩
  · rintro ⟨he, hlt⟩
    exact ⟨headerIndex e.2.2, hlt, he, rfl⟩

lemma sortByHeaderIndex_sorted (l : List RcptEntry) :
    List.Pairwise (fun x y => headerIndex x.2.2 ≤ headerIndex y.2.2) (sortByHeaderIndex l) := by
  unfold sortByHeaderIndex
  rw [List.pairwise_flatMap]
  constructor
  · intro i _
    apply List.pairwise_of_forall_mem_list
    intro x hx y hy
    rw [List.mem_filter] at hx hy
    have hxi : headerIndex x.2.2 = i := by simpa using hx.2
    have hyi : headerIndex y.2.2 = i := by simpa using hy.2
    rw [hxi, hyi]
  · have hr : List.Pairwise (· < ·) (List.range theHeaders.length) :=
      List.pairwise_lt_range _
    refine hr.imp ?_
    intro i j hij x hx y hy
    rw [List.mem_filter] at hx
    rw [List.mem_filter] at hy
    have hxi : headerIndex x.2.2 = i := by simpa using hx.2
    have hyi : headerIndex y.2.2 = j := by simpa using hy.2
    rw [hxi, hyi]
    exact Nat.le_of_lt hij

lemma find?_setdefault_some (vis : List VisEntry) (b : String) (v : String × String)
    (a : String) (e : VisEntry) (h : vis.find? (fun x => x.1 == a) = some e) :
    (setdefault vis b v).find? (fun x => x.1 == a) = some e := by
  unfold setdefault
  split
  · exact h
  · rw [List.find?_append, h]
    rfl

lemma find?_fold_inner_some (k : String) (ps : List (String × String)) :
    ∀ (vis : List VisEntry) (a : String) (e : VisEntry),
      vis.find? (fun x => x.1 == a) = some e →
      (ps.foldl (fun vis2 ra => setdefault vis2 ra.2 (ra.1, k)) vis).find?
        (fun x => x.1 == a) = some e := by
  induction ps with
  | nil => intro vis a e h; exact h
  | cons p rest ih =>
    intro vis a e h
    exact ih _ a e (find?_setdefault_some _ _ _ _ _ h)

lemma find?_fold_outer_some (addrs : String → List (String × String)) (ks : List String) :
    ∀ (vis : List VisEntry) (a : String) (e : VisEntry),
      vis.find? (fun x => x.1 == a) = some e →
      (ks.foldl (fun vis2 k => (addrs k).foldl
          (fun vis3 ra => setdefault vis3 ra.2 (ra.1, k)) vis2) vis).find?
        (fun x => x.1 == a) = some e := by
  induction ks with
  | nil => intro vis a e h; exact h
  | cons k rest ih =>
    intro vis a e h
    exact ih _ a e (find?_fold_inner_some k (addrs k) vis a e h)

lemma find?_setdefault_none (vis : List VisEntry) (b : String) (v : String × String)
    (a : String) (hba : b ≠ a) (h : vis.find? (fun x => x.1 == a) = none) :
    (setdefault vis b v).find? (fun x => x.1 == a) = none := by
  unfold setdefault
  split
  · exact h
  · rw [List.find?_append, h]
    simp [hba]

lemma find?_fold_inner_insert (k : String) (ps : List (String × String)) :
    ∀ (vis : List VisEntry) (a : String),
      vis.find? (fun x => x.1 == a) = none →
      (∃ rn, (rn, a) ∈ ps) →
      ∃ rn, (ps.foldl (fun vis2 ra => setdefault vis2 ra.2 (ra.1, k)) vis).find?
        (fun x => x.1 == a) = some (a, rn, k) := by
  induction ps with
  | nil =>
    rintro vis a _ ⟨rn, hrn⟩
    exact absurd hrn (List.not_mem_nil _)
  | cons p rest ih =>
    rintro vis a hnone ⟨rn, hrn⟩
    by_cases hpa : p.2 = a
    · have hins : (setdefault vis p.2 (p.1, k)).find? (fun x => x.1 == a)
          = some (a, p.1, k) := by
        unfold setdefault
        split
        · next hany =>
          exfalso
          rw [List.any_eq_true] at hany
          obtain ⟨x, hx, hxa⟩ := hany
          rw [hpa] at hxa
          exact List.find?_eq_none.mp hnone x hx hxa
        · rw [List.find?_append, hnone, hpa]
          simp
      exact ⟨p.1, find?_fold_inner_some k rest _ a _ hins⟩
    · have hnone2 : (setdefault vis p.2 (p.1, k)).find? (fun x => x.1 == a) = none :=
        find?_setdefault_none vis p.2 (p.1, k) a hpa hnone
      have hrest : ∃ rn2, (rn2, a) ∈ rest := by
        rcases List.mem_cons.mp hrn with heq | hm
        · exfalso
          apply hpa
          rw [← heq]
        · exact ⟨rn, hm⟩
      exact ih _ a hnone2 hrest

lemma find?_fold_inner_none (k : String) (ps : List (String × String)) :
    ∀ (vis : List VisEntry) (a : String),
      vis.find? (fun x => x.1 == a) = none →
      (∀ rn, (rn, a) ∉ ps) →
      (ps.foldl (fun vis2 ra => setdefault vis2 ra.2 (ra.1, k)) vis).find?
        (fun x => x.1 == a) = none := by
  induction ps with
  | nil => intro vis a h _; exact h
  | cons p rest ih =>
    intro vis a hnone hnotin
    have hpa : p.2 ≠ a := by
      intro hpa
      exact hnotin p.1 (by rw [show (p.1, a) = p from by rw [← hpa]]; exact List.mem_cons_self _ _)
    exact ih _ a (find?_setdefault_none vis p.2 (p.1, k) a hpa hnone)
      (fun rn2 hm => hnotin rn2 (List.mem_cons_of_mem _ hm))

lemma find?_fold_outer_none (addrs : String → List (String × String)) (ks : List String) :
    ∀ (vis : List VisEntry) (a : String),
      vis.find? (fun x => x.1 == a) = none →
      (∀ k ∈ ks, ∀ rn, (rn, a) ∉ addrs k) →
      (ks.foldl (fun vis2 k => (addrs k).foldl
          (fun vis3 ra => setdefault vis3 ra.2 (ra.1, k)) vis2) vis).find?
        (fun x => x.1 == a) = none := by
  induction ks with
  | nil => intro vis a h _; exact h
  | cons k rest ih =>
    intro vis a hnone hnotin
    exact ih _ a
      (find?_fold_inner_none k (addrs k) vis a hnone (hnotin k (List.mem_cons_self _ _)))
      (fun k2 hk2 => hnotin k2 (List.mem_cons_of_mem _ hk2))

lemma visible_to_entry (addrs : String → List (String × String)) (a : String)
    (hTo : ∃ rn, (rn, a) ∈ addrs "To") :
    ∃ rn, (visible_recipients addrs).find? (fun x => x.1 == a) = some (a, rn, "To") := by
  have h0 : visible_recipients addrs =
      (["Resent-To", "Cc", "Resent-Cc", "Bcc", "Resent-Bcc"]).foldl
        (fun vis2 k => (addrs k).foldl (fun vis3 ra => setdefault vis3 ra.2 (ra.1, k)) vis2)
        ((addrs "To").foldl (fun vis3 ra => setdefault vis3 ra.2 (ra.1, "To")) []) := rfl
  obtain ⟨rn, hsome⟩ := find?_fold_inner_insert "To" (addrs "To") [] a rfl hTo
  rw [h0]
  exact ⟨rn, find?_fold_outer_some addrs _ _ a _ hsome⟩

lemma visible_none (addrs : String → List (String × String)) (a : String)
    (h : ∀ k ∈ theHeaders, ∀ rn, (rn, a) ∉ addrs k) :
    (visible_recipients addrs).find? (fun x => x.1 == a) = none := by
  exact find?_fold_outer_none addrs theHeaders [] a rfl h

/-! ### Facts about popVis and the recipients loop -/

lemma find?_filter_ne (a b : String) (hne : b ≠ a) :
    ∀ vis : List VisEntry,
      (vis.filter (fun x => !(x.1 == b))).find? (fun x => x.1 == a) =
        vis.find? (fun x => x.1 == a) := by
  intro vis
  rw [List.find?_filter]
  congr 1
  funext x
  by_cases hxa : x.1 = a
  · have hxb : x.1 ≠ b := by
      rw [hxa]
      exact fun h => hne h.symm
    have hab : ¬ a = b := fun h => hne h.symm
    simp only [hxa]
    simp [hab]
  · simp [hxa]

lemma popVis_self_none (vis : List VisEntry) (a : String) :
    ((popVis vis a).2).find? (fun x => x.1 == a) = none := by
  unfold popVis
  cases hf : vis.find? (fun e => e.1 == a) with
  | none => exact hf
  | some e =>
    apply List.find?_eq_none.mpr
    intro x hx
    rw [List.mem_filter] at hx
    simpa using hx.2

lemma popVis_find?_ne (vis : List VisEntry) (a b : String) (hne : b ≠ a) :
    ((popVis vis b).2).find? (fun x => x.1 == a) = vis.find? (fun x => x.1 == a) := by
  unfold popVis
  cases hf : vis.find? (fun e => e.1 == b) with
  | none => rfl
  | some e => exact find?_filter_ne a b hne vis

lemma popVis_none_preserve (vis : List VisEntry) (a b : String)
    (h : vis.find? (fun x => x.1 == a) = none) :
    ((popVis vis b).2).find? (fun x => x.1 == a) = none := by
  unfold popVis
  cases hf : vis.find? (fun e => e.1 == b) with
  | none => exact h
  | some e =>
    apply List.find?_eq_none.mpr
    intro x hx
    rw [List.mem_filter] at hx
    exact List.find?_eq_none.mp h x hx.1

lemma popVis_fst_of_some (vis : List VisEntry) (a : String) (e : VisEntry)
    (h : vis.find? (fun x => x.1 == a) = some e) : (popVis vis a).1 = (e.2.1, e.2.2) := by
  unfold popVis
  rw [h]

lemma popVis_fst_of_none (vis : List VisEntry) (a : String)
    (h : vis.find? (fun x => x.1 == a) = none) : (popVis vis a).1 = ("", "Bcc") := by
  unfold popVis
  rw [h]

lemma envLoop_cons (vis : List VisEntry) (a : String) (t : List String) :
    envLoop vis (a :: t) =
      ((some a, ((popVis vis a).1.1, a), (popVis vis a).1.2) :: (envLoop (popVis vis a).2 t).1,
       (envLoop (popVis vis a).2 t).2) := rfl

lemma envLoop_length (rs : List String) :
    ∀ vis : List VisEntry, ((envLoop vis rs).1).length = rs.length := by
  induction rs with
  | nil => intro vis; rfl
  | cons a rest ih =>
    intro vis
    rw [envLoop_cons]
    simp [ih]

lemma envLoop_append (xs ys : List String) :
    ∀ vis : List VisEntry, envLoop vis (xs ++ ys) =
      ((envLoop vis xs).1 ++ (envLoop (envLoop vis xs).2 ys).1,
       (envLoop (envLoop vis xs).2 ys).2) := by
  induction xs with
  | nil => intro vis; rfl
  | cons a rest ih =>
    intro vis
    rw [List.cons_append, envLoop_cons, ih, envLoop_cons]
    rfl

lemma envLoop_find?_preserve (rs : List String) (a : String) (h : a ∉ rs) :
    ∀ vis : List VisEntry,
      ((envLoop vis rs).2).find? (fun x => x.1 == a) = vis.find? (fun x => x.1 == a) := by
  induction rs with
  | nil => intro vis; rfl
  | cons b rest ih =>
    intro vis
    have hb : b ≠ a := by
      intro hba
      exact h (by rw [← hba]; exact List.mem_cons_self _ _)
    have hrest : a ∉ rest := fun hm => h (List.mem_cons_of_mem _ hm)
    rw [envLoop_cons]
    show ((envLoop (popVis vis b).2 rest).2).find? (fun x => x.1 == a) = _
    rw [ih hrest, popVis_find?_ne vis a b hb]

lemma envLoop_find?_none_preserve (rs : List String) (a : String) :
    ∀ vis : List VisEntry, vis.find? (fun x => x.1 == a) = none →
      ((envLoop vis rs).2).find? (fun x => x.1 == a) = none := by
  induction rs with
  | nil => intro vis h; exact h
  | cons b rest ih =>
    intro vis h
    rw [envLoop_cons]
    exact ih _ (popVis_none_preserve vis a b h)

lemma envLoop_entry_addr (rs : List String) :
    ∀ (vis : List VisEntry) (x : RcptEntry), x ∈ (envLoop vis rs).1 → ∃ b ∈ rs, x.1 = some b := by
  induction rs with
  | nil => intro vis x hx; exact absurd hx (List.not_mem_nil _)
  | cons b rest ih =>
    intro vis x hx
    rw [envLoop_cons] at hx
    rcases List.mem_cons.mp hx with rfl | hxt
    · exact ⟨b, List.mem_cons_self _ _, rfl⟩
    · obtain ⟨b2, hb2, hxb2⟩ := ih _ x hxt
      exact ⟨b2, List.mem_cons_of_mem _ hb2, hxb2⟩

lemma envLoop_none_all_bcc (a : String) :
    ∀ (rs : List String) (vis : List VisEntry),
      vis.find? (fun x => x.1 == a) = none →
      ∀ x ∈ (envLoop vis rs).1, x.1 = some a → x = (some a, ("", a), "Bcc") := by
  intro rs
  induction rs with
  | nil => intro vis _ x hx; exact absurd hx (List.not_mem_nil _)
  | cons b rest ih =>
    intro vis hnone x hx hxa
    rw [envLoop_cons] at hx
    rcases List.mem_cons.mp hx with rfl | hxt
    · have hba : b = a := Option.some.inj hxa
      subst hba
      have hpop : popVis vis b = (("", "Bcc"), vis) := by
        unfold popVis
        rw [hnone]
      rw [hpop]
    · exact ih _ (popVis_none_preserve vis a b hnone) x hxt hxa

lemma envLoop_some_unique (a : String) (e : VisEntry) :
    ∀ (rs : List String) (vis : List VisEntry),
      rs.count a ≤ 1 → vis.find? (fun x => x.1 == a) = some e →
      ∀ x ∈ (envLoop vis rs).1, x.1 = some a → x = (some a, (e.2.1, a), e.2.2) := by
  intro rs
  induction rs with
  | nil => intro vis _ _ x hx; exact absurd hx (List.not_mem_nil _)
  | cons b rest ih =>
    intro vis hcount hfind x hx hxa
    rw [envLoop_cons] at hx
    by_cases hba : b = a
    · subst hba
      have hnotin : b ∉ rest := by
        intro hmem
        rw [List.count_cons_self] at hcount
        have := List.count_pos_iff.mpr hmem
        omega
      rcases List.mem_cons.mp hx with rfl | hxt
      · have hpop : popVis vis b = ((e.2.1, e.2.2), vis.filter (fun x => !(x.1 == b))) := by
          unfold popVis
          rw [hfind]
        rw [hpop]
      · exfalso
        obtain ⟨b2, hb2, hxb2⟩ := envLoop_entry_addr rest _ x hxt
        rw [hxa] at hxb2
        rw [Option.some.inj hxb2] at hnotin
        exact hnotin hb2
    · have hcount2 : rest.count a ≤ 1 := by
        rw [List.count_cons_of_ne (fun h2 => hba h2.symm)] at hcount
        exact hcount
      rcases List.mem_cons.mp hx with rfl | hxt
      · exact absurd (Option.some.inj hxa) hba
      · refine ih _ hcount2 ?_ x hxt hxa
        rw [popVis_find?_ne vis a b hba]
        exact hfind

lemma envLoop_exists_addr (a : String) :
    ∀ (rs : List String) (vis : List VisEntry), a ∈ rs →
      ∃ x ∈ (envLoop vis rs).1, x.1 = some a := by
  intro rs
  induction rs with
  | nil => intro vis h; exact absurd h (List.not_mem_nil _)
  | cons b rest ih =>
    intro vis h
    rw [envLoop_cons]
    by_cases hba : b = a
    · subst hba
      exact ⟨(some b, ((popVis vis b).1.1, b), (popVis vis b).1.2), List.mem_cons_self _ _, rfl⟩
    · have hrest : a ∈ rest := by
        rcases List.mem_cons.mp h with h2 | h2
        · exact absurd h2.symm hba
        · exact h2
      obtain ⟨x, hx, hxa⟩ := ih _ hrest
      exact ⟨x, List.mem_cons_of_mem _ hx, hxa⟩

/-! ### Claims C8 and C10 -/

/-- C8: the triples returned by Envelope.recipients() are sorted by the
position of their header in the precedence order To, Resent-To, Cc,
Resent-Cc, Bcc, Resent-Bcc; an envelope recipient listed in both the To
and the Cc header is reported with header To; and an envelope recipient
absent from every scanned header is reported with header Bcc. -/
theorem c8_recipient_precedence (addrs : String → List (String × String))
    (rcpttos : List String) :
    List.Pairwise (fun x y => headerIndex x.2.2 ≤ headerIndex y.2.2)
      (envelope_recipients addrs rcpttos) ∧
    (∀ a : String, rcpttos.count a = 1 →
      (∃ rn, (rn, a) ∈ addrs "To") → (∃ rn, (rn, a) ∈ addrs "Cc") →
      (∃ rn, (some a, (rn, a), "To") ∈ envelope_recipients addrs rcpttos) ∧
      ∀ e ∈ envelope_recipients addrs rcpttos, e.1 = some a → e.2.2 = "To") ∧
    (∀ a : String, a ∈ rcpttos →
      (∀ k ∈ theHeaders, ∀ rn, (rn, a) ∉ addrs k) →
      ((some a, ("", a), "Bcc") ∈ envelope_recipients addrs rcpttos ∧
       ∀ e ∈ envelope_recipients addrs rcpttos, e.1 = some a → e.2.2 = "Bcc")) := by
  refine ⟨sortByHeaderIndex_sorted _, ?_, ?_⟩
  · intro a hcount hTo _
    obtain ⟨rn, hvis⟩ := visible_to_entry addrs a hTo
    have hchar : ∀ e ∈ envelope_recipients addrs rcpttos, e.1 = some a →
        e = (some a, (rn, a), "To") := by
      intro e he hea
      unfold envelope_recipients at he
      rw [mem_sortByHeaderIndex] at he
      rcases List.mem_append.mp he.1 with hin | hleft
      · exact envLoop_some_unique a (a, rn, "To") rcpttos _ (le_of_eq hcount) hvis e hin hea
      · exfalso
        obtain ⟨v, _, hveq⟩ := List.mem_map.mp hleft
        rw [← hveq] at hea
        exact Option.noConfusion hea
    constructor
    · have hmem : a ∈ rcpttos := by
        rw [← List.count_pos_iff]
        omega
      obtain ⟨x, hx, hxa⟩ := envLoop_exists_addr a rcpttos (visible_recipients addrs) hmem
      have hxeq := envLoop_some_unique a (a, rn, "To") rcpttos _ (le_of_eq hcount) hvis x hx hxa
      refine ⟨rn, ?_⟩
      unfold envelope_recipients
      rw [mem_sortByHeaderIndex]
      constructor
      · rw [← hxeq]
        exact List.mem_append_left _ hx
      · show headerIndex "To" < theHeaders.length
        decide
    · intro e he hea
      rw [hchar e he hea]
  · intro a hmem hnotin
    have hvisnone := visible_none addrs a hnotin
    have hchar : ∀ e ∈ envelope_recipients addrs rcpttos, e.1 = some a →
        e = (some a, ("", a), "Bcc") := by
      intro e he hea
      unfold envelope_recipients at he
      rw [mem_sortByHeaderIndex] at he
      rcases List.mem_append.mp he.1 with hin | hleft
      · exact envLoop_none_all_bcc a rcpttos _ hvisnone e hin hea
      · exfalso
        obtain ⟨v, _, hveq⟩ := List.mem_map.mp hleft
        rw [← hveq] at hea
        exact Option.noConfusion hea
    constructor
    · obtain ⟨x, hx, hxa⟩ := envLoop_exists_addr a rcpttos (visible_recipients addrs) hmem
      have hxeq := envLoop_none_all_bcc a rcpttos _ hvisnone x hx hxa
      unfold envelope_recipients
      rw [mem_sortByHeaderIndex]
      constructor
      · rw [← hxeq]
        exact List.mem_append_left _ hx
      · show headerIndex "Bcc" < theHeaders.length
        decide
    · intro e he hea
      rw [hchar e he hea]

/-- Header contents for the C8 and C10 witnesses: address x appears in
the To header with display name Nick and in the Cc header with display
name Mick. -/
def addrsW : String → List (String × String) := fun k =>
  if k = "To" then [("Nick", "x")] else if k = "Cc" then [("Mick", "x")] else []

/-- Witness for C8: the envelope recipient x, present in both To and Cc,
is reported with header To. -/
theorem c8_witness :
    ∃ rn, (some "x", (rn, "x"), "To") ∈ envelope_recipients addrsW ["x"] := by
  have h := (c8_recipient_precedence addrsW ["x"]).2.1 "x" (by decide)
    ⟨"Nick", by decide⟩ ⟨"Mick", by decide⟩
  exact h.1

/-- C10: when an address occurs twice in the envelope-recipient list and
its visible entry is e, the loop of Envelope.recipients() reports the
first occurrence with the visible display name and header of e, while the
later occurrence (whose entry was consumed by the pop of the first one)
is reported with an empty display name and header Bcc; that Bcc triple
also appears in the final output. -/
theorem c10_duplicate_bcc (addrs : String → List (String × String))
    (l1 l2 l3 : List String) (a : String) (e : VisEntry)
    (h1 : a ∉ l1)
    (he : (visible_recipients addrs).find? (fun x => x.1 == a) = some e) :
    (envLoop (visible_recipients addrs) (l1 ++ a :: (l2 ++ a :: l3))).1
      = (envLoop (visible_recipients addrs) l1).1
        ++ (some a, (e.2.1, a), e.2.2)
        :: ((envLoop (popVis (envLoop (visible_recipients addrs) l1).2 a).2 l2).1
            ++ (some a, ("", a), "Bcc")
            :: (envLoop (popVis (envLoop (popVis
                  (envLoop (visible_recipients addrs) l1).2 a).2 l2).2 a).2 l3).1) ∧
    (envLoop (visible_recipients addrs) l1).1.length = l1.length ∧
    (envLoop (popVis (envLoop (visible_recipients addrs) l1).2 a).2 l2).1.length = l2.length ∧
    (some a, ("", a), "Bcc") ∈ envelope_recipients addrs (l1 ++ a :: (l2 ++ a :: l3)) := by
  have hfind1 : ((envLoop (visible_recipients addrs) l1).2).find? (fun x => x.1 == a)
      = some e := by
    rw [envLoop_find?_preserve l1 a h1]
    exact he
  have hpop1 : (popVis (envLoop (visible_recipients addrs) l1).2 a).1 = (e.2.1, e.2.2) :=
    popVis_fst_of_some _ a e hfind1
  have hfind2 : ((popVis (envLoop (visible_recipients addrs) l1).2 a).2).find?
      (fun x => x.1 == a) = none := popVis_self_none _ a
  have hfind3 : ((envLoop (popVis (envLoop (visible_recipients addrs) l1).2 a).2 l2).2).find?
      (fun x => x.1 == a) = none := envLoop_find?_none_preserve l2 a _ hfind2
  have hpop3 : (popVis (envLoop (popVis
      (envLoop (visible_recipients addrs) l1).2 a).2 l2).2 a).1 = ("", "Bcc") :=
    popVis_fst_of_none _ a hfind3
  have hkey : (envLoop (visible_recipients addrs) (l1 ++ a :: (l2 ++ a :: l3))).1
      = (envLoop (visible_recipients addrs) l1).1
        ++ (some a, (e.2.1, a), e.2.2)
        :: ((envLoop (popVis (envLoop (visible_recipients addrs) l1).2 a).2 l2).1
            ++ (some a, ("", a), "Bcc")
            :: (envLoop (popVis (envLoop (popVis
                  (envLoop (visible_recipients addrs) l1).2 a).2 l2).2 a).2 l3).1) := by
    rw [envLoop_append l1 (a :: (l2 ++ a :: l3)) (visible_recipients addrs)]
    show (envLoop (visible_recipients addrs) l1).1
        ++ (envLoop (envLoop (visible_recipients addrs) l1).2 (a :: (l2 ++ a :: l3))).1 = _
    rw [envLoop_cons]
    show (envLoop (visible_recipients addrs) l1).1
        ++ (some a, ((popVis (envLoop (visible_recipients addrs) l1).2 a).1.1, a),
              (popVis (envLoop (visible_recipients addrs) l1).2 a).1.2)
          :: (envLoop (popVis (envLoop (visible_recipients addrs) l1).2 a).2
                (l2 ++ a :: l3)).1 = _
    rw [hpop1, envLoop_append l2 (a :: l3), envLoop_cons, hpop3]
  refine ⟨hkey, envLoop_length l1 _, envLoop_length l2 _, ?_⟩
  have hin : (some a, ("", a), "Bcc")
      ∈ (envLoop (visible_recipients addrs) (l1 ++ a :: (l2 ++ a :: l3))).1 := by
    rw [hkey]
    refine List.mem_append_right _ ?_
    refine List.mem_cons_of_mem _ ?_
    exact List.mem_append_right _ (List.mem_cons_self _ _)
  unfold envelope_recipients
  rw [mem_sortByHeaderIndex]
  refine ⟨List.mem_append_left _ hin, ?_⟩
  show headerIndex "Bcc" < theHeaders.length
  decide

/-- Witness for C10: with x visible in To, sending to x twice reports the
second occurrence as Bcc with an empty display name. -/
theorem c10_witness :
    (some "x", ("", "x"), "Bcc") ∈ envelope_recipients addrsW ["x", "x"] := by
  have h := c10_duplicate_bcc addrsW [] [] [] "x" ("x", "Nick", "To") (by simp) (by decide)
  exact h.2.2.2
